import Mathlib

/-!
Verification development for the diskutil-mac-inspector repository.

The definitions below are a shallow embedding of the Python sources,
chiefly src/interactive_cleaner.py (the classifier `is_safe_to_delete`,
the size parser `parse_file_size`, the trash mover `move_to_trash`, the
catalog builder `find_large_files` and the interactive session
`interactive_cleanup`).  Strings are modelled as `List Char` where
character-level reasoning is needed; Python's ASCII-relevant
`str.lower`/`str.upper`/`str.strip` are modelled with `Char.toLower`,
`Char.toUpper` and whitespace trimming on character lists.
-/

set_option maxRecDepth 4000

/-- Python `s.lower()` on the character list of a string (ASCII case folding,
which covers every pattern in the table). -/
def pyLower (cs : List Char) : List Char := cs.map Char.toLower

/-- Python `s.upper()` on the character list of a string. -/
def pyUpper (cs : List Char) : List Char := cs.map Char.toUpper

/-- Python `s.strip()`: remove leading and trailing whitespace. -/
def pyStrip (cs : List Char) : List Char :=
  ((cs.dropWhile Char.isWhitespace).reverse.dropWhile Char.isWhitespace).reverse

/-- Python's substring test `needle in hay` (contiguous substring). -/
def containsSub (needle : List Char) : List Char → Bool
  | [] => decide (needle = [])
  | c :: t => needle.isPrefixOf (c :: t) || containsSub needle t

theorem containsSub_iff (needle hay : List Char) :
    containsSub needle hay = true ↔ needle <:+: hay := by
  induction hay with
  | nil => simp [containsSub]
  | cons c t ih =>
    simp [containsSub, List.infix_cons_iff, ih, Bool.or_eq_true]

/-- Substring test lifted to `String`s, as Python's `in` on `str`. -/
def strContains (hay needle : String) : Bool := containsSub needle.data hay.data

/-- Digit-string value: `foldl` accumulation of decimal digits. -/
def digitsVal (cs : List Char) : Nat :=
  cs.foldl (fun a c => 10 * a + (c.toNat - 48)) 0

/-- The regex match `^(\d+\.?\d*)([KMGT]?)$` from `parse_file_size`
(src/interactive_cleaner.py line 46 and src/diskutil_inspector.py line 44),
applied to an upper-cased, stripped token.  Returns the digit string
(integer and fractional digits concatenated), the number of fractional
digits, and the unit character (`' '` when absent). -/
def matchSizeToken (cs : List Char) : Option (List Char × Nat × Char) :=
  let d1 := cs.takeWhile Char.isDigit
  let rest := cs.dropWhile Char.isDigit
  if d1 = [] then none
  else
    let fracRest : List Char × List Char :=
      match rest with
      | '.' :: r => (r.takeWhile Char.isDigit, r.dropWhile Char.isDigit)
      | _ => ([], rest)
    match fracRest.2 with
    | [] => some (d1 ++ fracRest.1, fracRest.1.length, ' ')
    | [u] => if u = 'K' ∨ u = 'M' ∨ u = 'G' ∨ u = 'T'
             then some (d1 ++ fracRest.1, fracRest.1.length, u) else none
    | _ :: _ :: _ => none

/-- The `multipliers` dict lookup `multipliers.get(unit, 1)` from
`parse_file_size`; the regex only ever produces `K`, `M`, `G`, `T` or an
absent unit (modelled as `' '`, falling to the default `1`). -/
def unitMultiplier (u : Char) : Nat :=
  if u = 'B' then 1
  else if u = 'K' then 1024
  else if u = 'M' then 1024 ^ 2
  else if u = 'G' then 1024 ^ 3
  else if u = 'T' then 1024 ^ 4
  else 1

/-- The rational `2 ^ e` for an integer exponent, used in statements
about the rounded values. -/
def pow2 (e : ℤ) : ℚ :=
  if 0 ≤ e then ((2 ^ e.toNat : ℕ) : ℚ) else ((2 ^ (-e).toNat : ℕ) : ℚ)⁻¹

/-- Binary logarithm by structural fuel (so it reduces in the kernel);
`natLog2 n` is the floor of log2 for positive `n` (`natLog2_spec`). -/
def log2Fuel : ℕ → ℕ → ℕ
  | 0, _ => 0
  | f + 1, n => if n ≤ 1 then 0 else log2Fuel f (n / 2) + 1

/-- Floor of the binary logarithm. -/
def natLog2 (n : ℕ) : ℕ := log2Fuel n n

/-- Does `2 ^ d ≤ a / b` hold, decided in integer arithmetic? -/
def qle2pow (d : ℤ) (a b : ℕ) : Bool :=
  if 0 ≤ d then decide (2 ^ d.toNat * b ≤ a) else decide (b ≤ 2 ^ (-d).toNat * a)

/-- Floor of the binary logarithm of the positive rational `a / b`: the
true value is one of the two candidates obtained from the bit lengths of
`a` and `b`; one comparison picks it. -/
def qlog2 (a b : ℕ) : ℤ :=
  if qle2pow ((natLog2 a : ℤ) - (natLog2 b : ℤ)) a b
  then (natLog2 a : ℤ) - (natLog2 b : ℤ)
  else (natLog2 a : ℤ) - (natLog2 b : ℤ) - 1

/-- Round the rational `a / (b * 2 ^ e)` to the nearest integer, ties to
even, in integer arithmetic: with `A / B` the scaled fraction, compare the
doubled remainder against the denominator. -/
def roundPair (a b : ℕ) (e : ℤ) : ℕ :=
  let A := if 0 ≤ e then a else a * 2 ^ (-e).toNat
  let B := if 0 ≤ e then b * 2 ^ e.toNat else b
  if 2 * (A % B) < B then A / B
  else if B < 2 * (A % B) then A / B + 1
  else if A / B % 2 = 0 then A / B else A / B + 1

/-- IEEE-754 double (binary64) round-to-nearest-even of the non-negative
rational `a / b`, as mantissa and binary exponent: scale to a 53-bit
mantissa in `[2 ^ 52, 2 ^ 53)` and round to nearest, ties to even.  The
exponent is unbounded: overflow to infinity (tokens of 309 or more digits,
where the source's `int(inf)` raises OverflowError) and subnormal
precision loss (around 300 fractional digits) are outside the model. -/
def doublePair (a b : ℕ) : ℕ × ℤ :=
  (roundPair a b (qlog2 a b - 52), qlog2 a b - 52)

/-- The exact rational value of the double nearest `a / b`. -/
def doubleVal (a b : ℕ) : ℚ :=
  ((doublePair a b).1 : ℚ) * pow2 (doublePair a b).2

/-- `⌊m * 2 ^ e⌋` in integer arithmetic (`floorScaled_eq`). -/
def floorScaled (m : ℕ) (e : ℤ) : ℕ :=
  if 0 ≤ e then m * 2 ^ e.toNat else m / 2 ^ (-e).toNat

/-- Embedding of `parse_file_size` (src/interactive_cleaner.py lines 38-50,
identical in src/diskutil_inspector.py lines 34-48).  The Python code
computes `int(float(number) * multiplier)`: `float(number)` is the
correctly-rounded IEEE double of the exact rational
`digitsVal / 10 ^ fracLen` (modelled by `doublePair`, round to nearest,
ties to even); the multiplier is a power of two at most `2 ^ 40`, so its
conversion to double and the product `float * multiplier` are exact; `int`
truncates the non-negative product, i.e. takes its floor (`floorScaled`). -/
def parse_file_size (s : String) : Nat :=
  if s.data = [] then 0
  else
    match matchSizeToken (pyStrip (pyUpper s.data)) with
    | some (digs, fracLen, u) =>
        floorScaled ((doublePair (digitsVal digs) (10 ^ fracLen)).1 * unitMultiplier u)
          (doublePair (digitsVal digs) (10 ^ fracLen)).2
    | none => 0

/-- The `very_safe_patterns` table (src/interactive_cleaner.py lines 78-86). -/
def very_safe_patterns : List (String × String × String) :=
  [("/cache/", "🟢 Cache file", "VERY SAFE - biasanya bisa di-regenerate"),
   ("/caches/", "🟢 Cache file", "VERY SAFE - biasanya bisa di-regenerate"),
   (".cache", "🟢 Cache file", "VERY SAFE - biasanya bisa di-regenerate"),
   ("/tmp/", "🟢 Temporary file", "VERY SAFE - file temporary"),
   ("/temp/", "🟢 Temporary file", "VERY SAFE - file temporary"),
   (".tmp", "🟢 Temporary file", "VERY SAFE - file temporary"),
   (".log.", "🟢 Old log file", "VERY SAFE - log file lama")]

/-- The `probably_safe_patterns` table (src/interactive_cleaner.py lines
89-98).  Note the literal pattern "/.Trashes/" keeps the capital T of the
source. -/
def probably_safe_patterns : List (String × String × String) :=
  [(".dmg", "🟡 Disk image", "PROBABLY SAFE - installer yang sudah selesai"),
   (".pkg", "🟡 Package file", "PROBABLY SAFE - installer yang sudah selesai"),
   (".zip", "🟡 Archive file", "PROBABLY SAFE - tapi cek dulu isinya"),
   (".rar", "🟡 Archive file", "PROBABLY SAFE - tapi cek dulu isinya"),
   (".tar", "🟡 Archive file", "PROBABLY SAFE - tapi cek dulu isinya"),
   (" (1)", "🟡 Duplicate file", "PROBABLY SAFE - kemungkinan duplicate"),
   (" copy", "🟡 Copy file", "PROBABLY SAFE - kemungkinan duplicate"),
   ("/.Trashes/", "🟡 Trash file", "PROBABLY SAFE - file yang sudah di trash")]

/-- The `needs_review_patterns` table (src/interactive_cleaner.py lines
101-110). -/
def needs_review_patterns : List (String × String × String) :=
  [("/downloads/", "🟠 Download file", "NEEDS REVIEW - bisa jadi file penting"),
   ("/documents/", "🟠 Document file", "NEEDS REVIEW - kemungkinan dokumen penting"),
   ("/desktop/", "🟠 Desktop file", "NEEDS REVIEW - file di desktop"),
   (".mov", "🟠 Video file", "NEEDS REVIEW - bisa jadi video penting"),
   (".mp4", "🟠 Video file", "NEEDS REVIEW - bisa jadi video penting"),
   (".mkv", "🟠 Video file", "NEEDS REVIEW - bisa jadi video penting"),
   (".avi", "🟠 Video file", "NEEDS REVIEW - bisa jadi video penting"),
   (".iso", "🟠 Disk image", "NEEDS REVIEW - bisa jadi backup penting")]

/-- The `dangerous_patterns` table (src/interactive_cleaner.py lines 113-122). -/
def dangerous_patterns : List (String × String × String) :=
  [("/system/", "🔴 System file", "DANGEROUS - jangan dihapus!"),
   ("/usr/", "🔴 System file", "DANGEROUS - jangan dihapus!"),
   ("/bin/", "🔴 System binary", "DANGEROUS - jangan dihapus!"),
   ("/sbin/", "🔴 System binary", "DANGEROUS - jangan dihapus!"),
   (".app/", "🔴 Application", "DANGEROUS - aplikasi aktif"),
   (".framework/", "🔴 Framework", "DANGEROUS - system framework"),
   ("system.log", "🔴 Active log", "DANGEROUS - log aktif"),
   ("/library/frameworks/", "🔴 System framework", "DANGEROUS - jangan dihapus!")]

/-- First pattern of a tier matching the (already lower-cased) path, as the
`for pattern, reason, recommendation in ...: if pattern in filepath_lower`
loop of `is_safe_to_delete`. -/
def firstMatch (pats : List (String × String × String)) (fl : List Char) :
    Option (String × String × String) :=
  pats.find? (fun p => containsSub p.1.data fl)

/-- Embedding of `is_safe_to_delete` (src/interactive_cleaner.py lines
69-141).  The source also computes an unused local `filename`
(`os.path.basename` of the lower-cased path); being dead code it is
omitted.  Returns `(safety_level, reason, recommendation)`. -/
def is_safe_to_delete (filepath : String) : String × String × String :=
  let fl := pyLower filepath.data
  match firstMatch dangerous_patterns fl with
  | some (_, r, rec) => ("DANGEROUS", r, rec)
  | none =>
    match firstMatch needs_review_patterns fl with
    | some (_, r, rec) => ("NEEDS_REVIEW", r, rec)
    | none =>
      match firstMatch probably_safe_patterns fl with
      | some (_, r, rec) => ("PROBABLY_SAFE", r, rec)
      | none =>
        match firstMatch very_safe_patterns fl with
        | some (_, r, rec) => ("VERY_SAFE", r, rec)
        | none => ("UNKNOWN", "⚪ Unknown file type", "UNKNOWN - cek manual dulu")

example : (is_safe_to_delete "/Users/x/Library/Caches/app.db").1 = "VERY_SAFE" := by decide
example : (is_safe_to_delete "/System/cache/a").1 = "DANGEROUS" := by decide
example : (is_safe_to_delete "/Volumes/USB/.Trashes/501/file.bin").1 = "UNKNOWN" := by decide
example : parse_file_size "2.5K" = 2560 := by decide
example : parse_file_size "120M" = 125829120 := by decide
example : parse_file_size "abc" = 0 := by decide
example : parse_file_size "5B" = 0 := by decide
example : parse_file_size " 3g " = 3 * 1024 ^ 3 := by decide

/-- `os.path.basename` for a path: the segment after the last slash. -/
def basenameChars (cs : List Char) : List Char :=
  (cs.reverse.takeWhile (· ≠ '/')).reverse

/-- `os.path.splitext` on a basename: split before the last dot, unless
every character preceding that dot is itself a dot (so ".bashrc" has no
extension).  Matches CPython's genericpath._splitext with no separator in
the input. -/
def splitextChars (cs : List Char) : List Char × List Char :=
  if '.' ∈ cs then
    let i := cs.length - 1 - cs.reverse.indexOf '.'
    if (cs.take i).any (· ≠ '.') then (cs.take i, cs.drop i) else (cs, [])
  else (cs, [])

example : splitextChars "a.txt".data = ("a".data, ".txt".data) := by decide
example : splitextChars ".bashrc".data = (".bashrc".data, []) := by decide
example : splitextChars "a.b.c".data = ("a.b".data, ".c".data) := by decide

/-- Decimal rendering of a natural number (the f-string `{counter}` in
`move_to_trash`), written with structural fuel so it reduces in the kernel. -/
def natStrAux : Nat → Nat → List Char
  | 0, _ => []
  | _ + 1, 0 => []
  | f + 1, n + 1 => natStrAux f ((n + 1) / 10) ++ [Nat.digitChar ((n + 1) % 10)]

/-- Decimal string of a natural number. -/
def natStr (n : Nat) : List Char := if n = 0 then ['0'] else natStrAux n n

example : natStr 1 = ['1'] := by decide
example : natStr 204 = ['2', '0', '4'] := by decide

/-- The collision name `f"{base_name} ({counter}){ext}"` from
`move_to_trash` (src/interactive_cleaner.py line 163). -/
def collName (base ext : List Char) (c : Nat) : List Char :=
  base ++ [' ', '('] ++ natStr c ++ [')'] ++ ext

/-- The `while os.path.exists(trash_path)` loop of `move_to_trash`
(src/interactive_cleaner.py lines 160-165): starting from the plain
filename and counter 1, try successive collision names until one is not
present.  The loop terminates because successive candidates are pairwise
distinct and the trash directory is finite; the fuel `existing.length + 1`
supplied by `trashTarget` is provably enough (`trashTarget_not_mem`). -/
def freeNameAux (existing : List (List Char)) (base ext : List Char) :
    List Char → Nat → Nat → List Char
  | cur, _, 0 => cur
  | cur, c, fuel + 1 =>
      if cur ∈ existing then freeNameAux existing base ext (collName base ext c) (c + 1) fuel
      else cur

/-- The name under which `move_to_trash`'s manual fallback places
`filename` inside a trash directory currently holding `existing`. -/
def trashTarget (existing : List (List Char)) (filename : List Char) : List Char :=
  let be := splitextChars filename
  freeNameAux existing be.1 be.2 filename 1 (existing.length + 1)

example : trashTarget ["a.txt".data] "a.txt".data = "a (1).txt".data := by decide
example : trashTarget [] "a.txt".data = "a.txt".data := by decide
example : trashTarget ["a.txt".data, "a (1).txt".data] "a.txt".data = "a (2).txt".data := by decide

/-- Environment for one `move_to_trash` call.  `trashCmdCode` is the result
of `subprocess.run(['trash', filepath])`: `none` when the `trash`
executable is absent (Python raises `FileNotFoundError`), `some rc` when it
runs with exit code `rc`.  `trashFiles` is the set of names already in
`~/.Trash`, and `moveErr` is `some msg` when `os.makedirs`/`shutil.move`
would raise with message `msg` (permission error, I/O error, source
vanished), `none` when the move succeeds. -/
structure TrashEnv where
  trashCmdCode : Option Nat
  trashFiles : List (List Char)
  moveErr : Option String

/-- Outcome of a `move_to_trash` call: the returned Bool, the trash
directory contents afterwards, and the error message surfaced to the
operator (printed at src/interactive_cleaner.py line 171), if any. -/
structure MoveResult where
  ok : Bool
  trashFiles : List (List Char)
  surfacedErr : Option String
deriving DecidableEq

/-- Embedding of `move_to_trash` (src/interactive_cleaner.py lines
143-172).  When the `trash` executable is missing, `subprocess.run` raises
`FileNotFoundError` before the fallback code is reached; the enclosing
`except` catches it, prints the error and returns `False` — the manual
fallback is NOT attempted in that case. -/
def move_to_trash (env : TrashEnv) (filepath : String) : MoveResult :=
  match env.trashCmdCode with
  | none => ⟨false, env.trashFiles, some "FileNotFoundError: trash"⟩
  | some 0 => ⟨true, env.trashFiles, none⟩
  | some (_ + 1) =>
      match env.moveErr with
      | some msg => ⟨false, env.trashFiles, some msg⟩
      | none =>
          let target := trashTarget env.trashFiles (basenameChars filepath.data)
          ⟨true, target :: env.trashFiles, none⟩

example : move_to_trash ⟨none, [], none⟩ "/d/a.txt" = ⟨false, [], some "FileNotFoundError: trash"⟩ := by decide
example : move_to_trash ⟨some 1, ["a.txt".data], none⟩ "/d/a.txt" =
    ⟨true, ["a (1).txt".data, "a.txt".data], none⟩ := by decide

/-- Metadata returned by `get_file_info` (src/interactive_cleaner.py lines
52-67) for a readable path: size in bytes plus the formatted timestamps.
A path whose `os.stat` raises is represented by `none` at the call site. -/
structure FileMeta where
  size_bytes : Nat
  modified : String
  accessed : String
deriving DecidableEq

/-- One catalog record as built by `find_large_files`
(src/interactive_cleaner.py lines 199-209).  The display-only
`size_human` rendering (binary float formatting) is omitted. -/
structure FileRecord where
  filepath : String
  location : String
  size_bytes : Nat
  modified : String
  accessed : String
  safety_level : String
  reason : String
  recommendation : String
deriving DecidableEq

/-- The record `find_large_files` appends for one discovered path. -/
def mkRecord (loc : String) (p : String) (m : FileMeta) : FileRecord :=
  let srr := is_safe_to_delete p
  { filepath := p, location := loc, size_bytes := m.size_bytes,
    modified := m.modified, accessed := m.accessed,
    safety_level := srr.1, reason := srr.2.1, recommendation := srr.2.2 }

/-- The discovery-order record list of `find_large_files`
(src/interactive_cleaner.py lines 187-209), before sorting.  `scans` holds,
per search location, the non-empty command output split into lines (the
`if code == 0 and output:` guard and the traversal itself are external
collaborators); `meta` is the `get_file_info` collaborator, `none` when the
path's metadata cannot be read (the record is then excluded). -/
def find_large_files_raw (meta : String → Option FileMeta)
    (scans : List (String × List String)) : List FileRecord :=
  scans.flatMap (fun lp =>
    (lp.2.filter (fun p => pyStrip p.data ≠ [])).filterMap
      (fun p => (meta p).map (mkRecord lp.1 p)))

/-- The sort key comparison of `large_files.sort(key=lambda x:
x['size_bytes'], reverse=True)` (src/interactive_cleaner.py line 212):
record `a` may stay before record `b` iff `b`'s size is at most `a`'s. -/
def sizeDescLE (a b : FileRecord) : Prop := b.size_bytes ≤ a.size_bytes

instance : DecidableRel sizeDescLE := fun a b => Nat.decLe b.size_bytes a.size_bytes

/-- Embedding of `find_large_files` (src/interactive_cleaner.py lines
174-213): build records in discovery order, then sort by size descending.
Python's `list.sort` is a stable sort; it is modelled by the stable
`List.insertionSort`. -/
def find_large_files (meta : String → Option FileMeta)
    (scans : List (String × List String)) : List FileRecord :=
  List.insertionSort sizeDescLE (find_large_files_raw meta scans)

/-- One operator interaction event: a line typed at the prompt, or a
keyboard interrupt raised while the prompt blocks. -/
inductive OpEvent
  | line (s : String)
  | interrupt
deriving DecidableEq

/-- How one record left the prompt loop of `interactive_cleanup`. -/
inductive Outcome
  | moved
  | moveFailed
  | keptNo
  | skipped
deriving DecidableEq

/-- The counters of `interactive_cleanup` (src/interactive_cleaner.py
lines 229-231). -/
structure Tally where
  deleted_count : Nat
  deleted_size : Nat
  skipped_count : Nat
deriving DecidableEq

/-- How the session ended: catalog exhausted (summary printed), operator
quit or interrupt (`return`, no summary), or input stream exhausted (the
`EOFError` from `input()` is not caught and escapes the session). -/
inductive SessionEnd
  | done
  | terminated
  | eof
deriving DecidableEq

/-- The default action string chosen at src/interactive_cleaner.py lines
241-252 from the record's safety level. -/
def defaultAction (safety_level : String) : List Char :=
  if safety_level = "VERY_SAFE" then ['y']
  else if safety_level = "PROBABLY_SAFE" then ['y']
  else if safety_level = "DANGEROUS" then ['n']
  else ['i']

/-- `input(...).lower().strip()` (src/interactive_cleaner.py line 256). -/
def normalizeInput (s : String) : List Char := pyStrip (pyLower s.data)

/-- Result of the inner `while True` prompt loop for one record: resolution
with an outcome (plus the `move_to_trash` calls made and the remaining
input), quit (the `q`/interrupt `return`), or input exhaustion. -/
inductive InnerRes
  | resolved (o : Outcome) (calls : List String) (rest : List OpEvent)
  | quit
  | eof
deriving DecidableEq

/-- The inner `while True` loop of `interactive_cleanup`
(src/interactive_cleaner.py lines 254-301) for one record.  `moveFn`
abstracts `move_to_trash`'s success flag for a given path.  The `i`/`info`
and `o`/`open` branches and unrecognized input only print and re-prompt;
`y` calls `move_to_trash` exactly once and resolves either way; `q` and a
keyboard interrupt return from the whole session. -/
def promptLoop (moveFn : String → Bool) (r : FileRecord) :
    List OpEvent → InnerRes
  | [] => .eof
  | .interrupt :: _ => .quit
  | .line s :: rest =>
      let c0 := normalizeInput s
      let c := if c0 = [] then defaultAction r.safety_level else c0
      if c = "y".data ∨ c = "yes".data then
        if moveFn r.filepath then .resolved .moved [r.filepath] rest
        else .resolved .moveFailed [r.filepath] rest
      else if c = "n".data ∨ c = "no".data then .resolved .keptNo [] rest
      else if c = "s".data ∨ c = "skip".data then .resolved .skipped [] rest
      else if c = "i".data ∨ c = "info".data then promptLoop moveFn r rest
      else if c = "o".data ∨ c = "open".data then promptLoop moveFn r rest
      else if c = "q".data ∨ c = "quit".data then .quit
      else promptLoop moveFn r rest

/-- The counter updates at src/interactive_cleaner.py lines 264-265 and
276: a successful move bumps `deleted_count`/`deleted_size`, a skip bumps
`skipped_count`, a failed move or a `no` changes nothing. -/
def updTally (t : Tally) (o : Outcome) (size : Nat) : Tally :=
  match o with
  | .moved => ⟨t.deleted_count + 1, t.deleted_size + size, t.skipped_count⟩
  | .moveFailed => t
  | .keptNo => t
  | .skipped => ⟨t.deleted_count, t.deleted_size, t.skipped_count + 1⟩

/-- Full result of a session run: how it ended, the processed records with
their outcomes (in order), the final counters, and every path passed to
`move_to_trash` (in call order). -/
structure SessionResult where
  endState : SessionEnd
  outcomes : List (FileRecord × Outcome)
  tally : Tally
  calls : List String
deriving DecidableEq

/-- The `for file_info in large_files` loop of `interactive_cleanup`
(src/interactive_cleaner.py lines 233-302). -/
def sessionAux (moveFn : String → Bool) :
    List FileRecord → List OpEvent → Tally → List (FileRecord × Outcome) →
    List String → SessionResult
  | [], _, t, acc, calls => ⟨.done, acc.reverse, t, calls.reverse⟩
  | r :: rs, inputs, t, acc, calls =>
      match promptLoop moveFn r inputs with
      | .eof => ⟨.eof, acc.reverse, t, calls.reverse⟩
      | .quit => ⟨.terminated, acc.reverse, t, calls.reverse⟩
      | .resolved o cs rest =>
          sessionAux moveFn rs rest (updTally t o r.size_bytes)
            ((r, o) :: acc) (cs.reverse ++ calls)

/-- Embedding of `interactive_cleanup` (src/interactive_cleaner.py lines
215-315).  An empty catalog returns early ("No large files found") without
printing a summary; it is modelled as a `done` result with zero counters.
The summary's "Files kept" line prints
`len(large_files) - deleted_count - skipped_count`, recoverable from the
result's outcome list and tally. -/
def interactive_cleanup (moveFn : String → Bool) (large_files : List FileRecord)
    (inputs : List OpEvent) : SessionResult :=
  sessionAux moveFn large_files inputs ⟨0, 0, 0⟩ [] []

/-- A VERY_SAFE record, as in the spec's end-to-end example. -/
def sampleRec1 : FileRecord :=
  ⟨"/Users/x/Library/Caches/app.db", "User Home", 200, "", "", "VERY_SAFE",
   "🟢 Cache file", "VERY SAFE - biasanya bisa di-regenerate"⟩

/-- A DANGEROUS record. -/
def sampleRec2 : FileRecord :=
  ⟨"/Applications/Foo.app/bin", "Applications", 50, "", "", "DANGEROUS",
   "🔴 Application", "DANGEROUS - aplikasi aktif"⟩

/-- An UNKNOWN record. -/
def sampleRec3 : FileRecord :=
  ⟨"/Users/x/data.bin", "User Home", 25, "", "", "UNKNOWN",
   "⚪ Unknown file type", "UNKNOWN - cek manual dulu"⟩

example :
    interactive_cleanup (fun _ => true) [sampleRec1, sampleRec2, sampleRec3]
      (List.replicate 3 (OpEvent.line "")) =
    ⟨.eof, [(sampleRec1, .moved), (sampleRec2, .keptNo)], ⟨1, 200, 0⟩,
     ["/Users/x/Library/Caches/app.db"]⟩ := by decide

example :
    interactive_cleanup (fun _ => true) [sampleRec1, sampleRec2, sampleRec3]
      [OpEvent.line "", OpEvent.line "q", OpEvent.line ""] =
    ⟨.terminated, [(sampleRec1, .moved)], ⟨1, 200, 0⟩,
     ["/Users/x/Library/Caches/app.db"]⟩ := by decide

example :
    interactive_cleanup (fun _ => true) [sampleRec1, sampleRec2]
      [OpEvent.line "", OpEvent.line ""] =
    ⟨.done, [(sampleRec1, .moved), (sampleRec2, .keptNo)], ⟨1, 200, 0⟩,
     ["/Users/x/Library/Caches/app.db"]⟩ := by decide

theorem firstMatch_isSome_iff (pats : List (String × String × String)) (fl : List Char) :
    (firstMatch pats fl).isSome ↔ ∃ p ∈ pats, p.1.data <:+: fl := by
  simp [firstMatch, List.find?_isSome, containsSub_iff]

theorem firstMatch_eq_none_iff (pats : List (String × String × String)) (fl : List Char) :
    firstMatch pats fl = none ↔ ∀ p ∈ pats, ¬ p.1.data <:+: fl := by
  simp [firstMatch, List.find?_eq_none, containsSub_iff]

theorem firstMatch_eq_first (pats : List (String × String × String)) (fl : List Char)
    (pre : List (String × String × String)) (p : String × String × String)
    (post : List (String × String × String)) (hsplit : pats = pre ++ p :: post)
    (hp : p.1.data <:+: fl) (hpre : ∀ q ∈ pre, ¬ q.1.data <:+: fl) :
    firstMatch pats fl = some p := by
  rw [firstMatch, List.find?_eq_some]
  refine ⟨by rw [containsSub_iff]; exact hp, pre, post, hsplit, ?_⟩
  intro q hq
  have := hpre q hq
  rw [← containsSub_iff] at this
  simpa using this

theorem is_safe_eval_dangerous (s : String) (p r rec : String)
    (h : firstMatch dangerous_patterns (pyLower s.data) = some (p, r, rec)) :
    is_safe_to_delete s = ("DANGEROUS", r, rec) := by
  simp only [is_safe_to_delete, h]

theorem is_safe_eval_review (s : String) (p r rec : String)
    (h0 : firstMatch dangerous_patterns (pyLower s.data) = none)
    (h : firstMatch needs_review_patterns (pyLower s.data) = some (p, r, rec)) :
    is_safe_to_delete s = ("NEEDS_REVIEW", r, rec) := by
  simp only [is_safe_to_delete, h0, h]

theorem is_safe_eval_probably (s : String) (p r rec : String)
    (h0 : firstMatch dangerous_patterns (pyLower s.data) = none)
    (h1 : firstMatch needs_review_patterns (pyLower s.data) = none)
    (h : firstMatch probably_safe_patterns (pyLower s.data) = some (p, r, rec)) :
    is_safe_to_delete s = ("PROBABLY_SAFE", r, rec) := by
  simp only [is_safe_to_delete, h0, h1, h]

theorem is_safe_eval_very (s : String) (p r rec : String)
    (h0 : firstMatch dangerous_patterns (pyLower s.data) = none)
    (h1 : firstMatch needs_review_patterns (pyLower s.data) = none)
    (h2 : firstMatch probably_safe_patterns (pyLower s.data) = none)
    (h : firstMatch very_safe_patterns (pyLower s.data) = some (p, r, rec)) :
    is_safe_to_delete s = ("VERY_SAFE", r, rec) := by
  simp only [is_safe_to_delete, h0, h1, h2, h]

theorem is_safe_eval_unknown (s : String)
    (h0 : firstMatch dangerous_patterns (pyLower s.data) = none)
    (h1 : firstMatch needs_review_patterns (pyLower s.data) = none)
    (h2 : firstMatch probably_safe_patterns (pyLower s.data) = none)
    (h3 : firstMatch very_safe_patterns (pyLower s.data) = none) :
    is_safe_to_delete s = ("UNKNOWN", "⚪ Unknown file type", "UNKNOWN - cek manual dulu") := by
  simp only [is_safe_to_delete, h0, h1, h2, h3]

theorem tier_of_some_match (s : String) (pats : List (String × String × String))
    (hm : ∃ p ∈ pats, p.1.data <:+: pyLower s.data)
    (tier : String)
    (heval : ∀ p r rec, firstMatch pats (pyLower s.data) = some (p, r, rec) →
      is_safe_to_delete s = (tier, r, rec)) :
    (is_safe_to_delete s).1 = tier := by
  have hs : (firstMatch pats (pyLower s.data)).isSome :=
    (firstMatch_isSome_iff pats (pyLower s.data)).mpr hm
  obtain ⟨⟨p, r, rec⟩, hq⟩ := Option.isSome_iff_exists.mp hs
  rw [heval p r rec hq]

/-- C1: for every path string, if the lower-cased path contains any
DANGEROUS-tier pattern, `is_safe_to_delete` classifies it DANGEROUS
regardless of lower-tier matches; tiers are evaluated in the fixed
precedence DANGEROUS, NEEDS_REVIEW, PROBABLY_SAFE, VERY_SAFE (a lower tier
only decides when every higher tier has no match), and within a tier the
first matching pattern supplies the returned reason and recommendation. -/
theorem claim_C1_dangerous_precedence (s : String) :
    ((∃ p ∈ dangerous_patterns, p.1.data <:+: pyLower s.data) →
       (is_safe_to_delete s).1 = "DANGEROUS")
  ∧ ((¬ ∃ p ∈ dangerous_patterns, p.1.data <:+: pyLower s.data) →
     (∃ p ∈ needs_review_patterns, p.1.data <:+: pyLower s.data) →
       (is_safe_to_delete s).1 = "NEEDS_REVIEW")
  ∧ ((¬ ∃ p ∈ dangerous_patterns, p.1.data <:+: pyLower s.data) →
     (¬ ∃ p ∈ needs_review_patterns, p.1.data <:+: pyLower s.data) →
     (∃ p ∈ probably_safe_patterns, p.1.data <:+: pyLower s.data) →
       (is_safe_to_delete s).1 = "PROBABLY_SAFE")
  ∧ ((¬ ∃ p ∈ dangerous_patterns, p.1.data <:+: pyLower s.data) →
     (¬ ∃ p ∈ needs_review_patterns, p.1.data <:+: pyLower s.data) →
     (¬ ∃ p ∈ probably_safe_patterns, p.1.data <:+: pyLower s.data) →
     (∃ p ∈ very_safe_patterns, p.1.data <:+: pyLower s.data) →
       (is_safe_to_delete s).1 = "VERY_SAFE")
  ∧ (∀ pre p post, dangerous_patterns = pre ++ p :: post →
       p.1.data <:+: pyLower s.data → (∀ q ∈ pre, ¬ q.1.data <:+: pyLower s.data) →
       is_safe_to_delete s = ("DANGEROUS", p.2.1, p.2.2))
  ∧ ((¬ ∃ p ∈ dangerous_patterns, p.1.data <:+: pyLower s.data) →
     ∀ pre p post, needs_review_patterns = pre ++ p :: post →
       p.1.data <:+: pyLower s.data → (∀ q ∈ pre, ¬ q.1.data <:+: pyLower s.data) →
       is_safe_to_delete s = ("NEEDS_REVIEW", p.2.1, p.2.2)) := by
  have hnone : ∀ pats : List (String × String × String),
      (¬ ∃ p ∈ pats, p.1.data <:+: pyLower s.data) →
      firstMatch pats (pyLower s.data) = none := by
    intro pats h
    rw [firstMatch_eq_none_iff]
    intro p hp hinf
    exact h ⟨p, hp, hinf⟩
  refine ⟨?_, ?_, ?_, ?_, ?_, ?_⟩
  · intro hm
    exact tier_of_some_match s dangerous_patterns hm "DANGEROUS"
      (fun p r rec h => is_safe_eval_dangerous s p r rec h)
  · intro hd hm
    exact tier_of_some_match s needs_review_patterns hm "NEEDS_REVIEW"
      (fun p r rec h => is_safe_eval_review s p r rec (hnone _ hd) h)
  · intro hd hr hm
    exact tier_of_some_match s probably_safe_patterns hm "PROBABLY_SAFE"
      (fun p r rec h => is_safe_eval_probably s p r rec (hnone _ hd) (hnone _ hr) h)
  · intro hd hr hp hm
    exact tier_of_some_match s very_safe_patterns hm "VERY_SAFE"
      (fun p r rec h => is_safe_eval_very s p r rec (hnone _ hd) (hnone _ hr) (hnone _ hp) h)
  · intro pre p post hsplit hp hpre
    exact is_safe_eval_dangerous s p.1 p.2.1 p.2.2
      (firstMatch_eq_first dangerous_patterns (pyLower s.data) pre p post hsplit hp hpre)
  · intro hd pre p post hsplit hp hpre
    exact is_safe_eval_review s p.1 p.2.1 p.2.2 (hnone _ hd)
      (firstMatch_eq_first needs_review_patterns (pyLower s.data) pre p post hsplit hp hpre)

/-- Witness for C1: "/System/Caches/installer.dmg" contains the dangerous
pattern "/system/" together with a VERY_SAFE pattern ("/caches/") and a
PROBABLY_SAFE pattern (".dmg"), and is classified DANGEROUS. -/
theorem claim_C1_witness :
    ((∃ p ∈ dangerous_patterns, p.1.data <:+: pyLower "/System/Caches/installer.dmg".data)
      ∧ (∃ p ∈ very_safe_patterns, p.1.data <:+: pyLower "/System/Caches/installer.dmg".data)
      ∧ (∃ p ∈ probably_safe_patterns, p.1.data <:+: pyLower "/System/Caches/installer.dmg".data))
  ∧ (is_safe_to_delete "/System/Caches/installer.dmg").1 = "DANGEROUS" :=
  ⟨by decide,
   (claim_C1_dangerous_precedence "/System/Caches/installer.dmg").1 (by decide)⟩

/-- C9: `is_safe_to_delete` is a total Lean function over every string
(the embedding has no failure path, matching the exception-free source);
every path matching no configured pattern of any tier — the empty string
among them — is classified UNKNOWN, with a non-empty reason and a
non-empty recommendation. -/
theorem claim_C9_unmatched_is_unknown (s : String)
    (h : ∀ p ∈ dangerous_patterns ++ needs_review_patterns ++
          probably_safe_patterns ++ very_safe_patterns,
          ¬ p.1.data <:+: pyLower s.data) :
    is_safe_to_delete s = ("UNKNOWN", "⚪ Unknown file type", "UNKNOWN - cek manual dulu")
  ∧ (is_safe_to_delete s).2.1 ≠ "" ∧ (is_safe_to_delete s).2.2 ≠ "" := by
  have hn : ∀ pats : List (String × String × String),
      (∀ p ∈ pats, p ∈ dangerous_patterns ++ needs_review_patterns ++
        probably_safe_patterns ++ very_safe_patterns) →
      firstMatch pats (pyLower s.data) = none := by
    intro pats hsub
    rw [firstMatch_eq_none_iff]
    intro p hp
    exact h p (hsub p hp)
  have he := is_safe_eval_unknown s
    (hn dangerous_patterns (by intro p hp; simp [hp]))
    (hn needs_review_patterns (by intro p hp; simp [hp]))
    (hn probably_safe_patterns (by intro p hp; simp [hp]))
    (hn very_safe_patterns (by intro p hp; simp [hp]))
  refine ⟨he, ?_, ?_⟩ <;> rw [he] <;> decide

/-- Witness for C9: the empty path matches no configured pattern and is
classified UNKNOWN with non-empty reason and recommendation. -/
theorem claim_C9_witness :
    (∀ p ∈ dangerous_patterns ++ needs_review_patterns ++
        probably_safe_patterns ++ very_safe_patterns, ¬ p.1.data <:+: pyLower "".data)
  ∧ (is_safe_to_delete "" = ("UNKNOWN", "⚪ Unknown file type", "UNKNOWN - cek manual dulu")
      ∧ (is_safe_to_delete "").2.1 ≠ "" ∧ (is_safe_to_delete "").2.2 ≠ "") :=
  ⟨by decide, claim_C9_unmatched_is_unknown "" (by decide)⟩

/-- C4 (refuted; the code has a dead rule): the source's PROBABLY_SAFE
table stores the pattern "/.Trashes/" with a capital T, but
`is_safe_to_delete` lower-cases the path before the substring tests, so
this pattern can never match.  The path "/Volumes/USB/.Trashes/501/file.bin"
contains "/.trashes/" case-insensitively and matches no DANGEROUS-tier or
NEEDS_REVIEW-tier pattern (nor any other pattern), yet it is classified
UNKNOWN, not PROBABLY_SAFE as the claim states. -/
theorem claim_C4_trashes_pattern_dead :
    ("/.trashes/".data <:+: pyLower "/Volumes/USB/.Trashes/501/file.bin".data)
  ∧ (("/.Trashes/", "🟡 Trash file", "PROBABLY SAFE - file yang sudah di trash")
        ∈ probably_safe_patterns)
  ∧ (∀ p ∈ dangerous_patterns ++ needs_review_patterns,
        ¬ p.1.data <:+: pyLower "/Volumes/USB/.Trashes/501/file.bin".data)
  ∧ is_safe_to_delete "/Volumes/USB/.Trashes/501/file.bin"
      = ("UNKNOWN", "⚪ Unknown file type", "UNKNOWN - cek manual dulu")
  ∧ (is_safe_to_delete "/Volumes/USB/.Trashes/501/file.bin").1 ≠ "PROBABLY_SAFE" := by
  refine ⟨by decide, by decide, by decide, by decide, by decide⟩

/-- C3 (refuted in its "unavailable" half; the code has a bug): when the
system `trash` executable is absent, `subprocess.run(['trash', filepath])`
raises `FileNotFoundError` before the fallback code is reached, the
enclosing `except` catches it, and `move_to_trash` returns False with the
error surfaced — the manual fallback is never attempted, even though the
very same environment shows the fallback succeeding when the primitive
merely fails (exit code nonzero).  The session-level contract (failures
return false and surface the message rather than raising) does hold. -/
theorem claim_C3_unavailable_primitive_skips_fallback :
    move_to_trash ⟨none, [], none⟩ "/Users/x/big.dmg"
      = ⟨false, [], some "FileNotFoundError: trash"⟩
  ∧ move_to_trash ⟨some 1, [], none⟩ "/Users/x/big.dmg"
      = ⟨true, ["big.dmg".data], none⟩
  ∧ move_to_trash ⟨some 1, [], some "PermissionError: [Errno 13]"⟩ "/Users/x/big.dmg"
      = ⟨false, [], some "PermissionError: [Errno 13]"⟩ := by
  refine ⟨by decide, by decide, by decide⟩

theorem digitsVal_append_digit (xs : List Char) (c : Char) :
    digitsVal (xs ++ [c]) = 10 * digitsVal xs + (c.toNat - 48) := by
  simp [digitsVal, List.foldl_append]

theorem digitChar_toNat {d : Nat} (h : d < 10) : (Nat.digitChar d).toNat = d + 48 := by
  interval_cases d <;> decide

theorem digitsVal_natStrAux : ∀ f n, n ≤ f → digitsVal (natStrAux f n) = n := by
  intro f
  induction f with
  | zero =>
    intro n hn
    interval_cases n
    simp [natStrAux, digitsVal]
  | succ f ih =>
    intro n hn
    match n with
    | 0 => simp [natStrAux, digitsVal]
    | m + 1 =>
      rw [natStrAux, digitsVal_append_digit, ih ((m + 1) / 10) (by omega),
        digitChar_toNat (Nat.mod_lt _ (by omega))]
      omega

theorem digitsVal_natStr (n : Nat) : digitsVal (natStr n) = n := by
  by_cases h : n = 0
  · subst h; decide
  · rw [natStr, if_neg h]
    exact digitsVal_natStrAux n n le_rfl

theorem natStr_inj {m n : Nat} (h : natStr m = natStr n) : m = n := by
  have := congrArg digitsVal h
  rwa [digitsVal_natStr, digitsVal_natStr] at this

theorem natStr_ne_nil (n : Nat) : natStr n ≠ [] := by
  match n with
  | 0 => decide
  | m + 1 =>
    rw [natStr, if_neg (by omega), natStrAux]
    simp

theorem collName_inj (base ext : List Char) {i j : Nat}
    (h : collName base ext i = collName base ext j) : i = j := by
  rw [collName, collName] at h
  have h1 := List.append_cancel_right h
  have h2 := List.append_cancel_right h1
  exact natStr_inj (List.append_cancel_left h2)

theorem splitextChars_concat (cs : List Char) :
    (splitextChars cs).1 ++ (splitextChars cs).2 = cs := by
  simp only [splitextChars]
  split
  · split
    · simp
    · simp
  · simp

theorem collName_ne_splitext (filename : List Char) (k : Nat) :
    collName (splitextChars filename).1 (splitextChars filename).2 k ≠ filename := by
  intro h
  have hlen := congrArg List.length h
  have hcat := congrArg List.length (splitextChars_concat filename)
  have hne : 0 < (natStr k).length :=
    List.length_pos.mpr (natStr_ne_nil k)
  simp [collName, List.length_append] at hlen hcat
  omega

theorem freeNameAux_congr : ∀ (fuel : Nat) (e₁ e₂ : List (List Char))
    (base ext cur : List Char) (c : Nat),
    (cur ∈ e₁ ↔ cur ∈ e₂) →
    (∀ k, c ≤ k → (collName base ext k ∈ e₁ ↔ collName base ext k ∈ e₂)) →
    freeNameAux e₁ base ext cur c fuel = freeNameAux e₂ base ext cur c fuel := by
  intro fuel
  induction fuel with
  | zero => intro e₁ e₂ base ext cur c _ _; rfl
  | succ fuel ih =>
    intro e₁ e₂ base ext cur c hcur hcoll
    rw [freeNameAux, freeNameAux]
    by_cases hc : cur ∈ e₁
    · rw [if_pos hc, if_pos (hcur.mp hc)]
      exact ih e₁ e₂ base ext (collName base ext c) (c + 1)
        (hcoll c le_rfl) (fun k hk => hcoll k (by omega))
    · rw [if_neg hc, if_neg (fun h => hc (hcur.mpr h))]

theorem freeNameAux_shape : ∀ (fuel : Nat) (existing : List (List Char))
    (base ext cur : List Char) (c : Nat),
    freeNameAux existing base ext cur c fuel = cur ∨
    ∃ k, c ≤ k ∧ freeNameAux existing base ext cur c fuel = collName base ext k := by
  intro fuel
  induction fuel with
  | zero => intro existing base ext cur c; left; rfl
  | succ fuel ih =>
    intro existing base ext cur c
    rw [freeNameAux]
    by_cases hc : cur ∈ existing
    · rw [if_pos hc]
      rcases ih existing base ext (collName base ext c) (c + 1) with h | ⟨k, hk, h⟩
      · exact Or.inr ⟨c, le_rfl, h⟩
      · exact Or.inr ⟨k, by omega, h⟩
    · rw [if_neg hc]; left; rfl

theorem freeNameAux_not_mem : ∀ (fuel : Nat) (existing : List (List Char))
    (base ext cur : List Char) (c : Nat),
    existing.length < fuel →
    (∀ k, c ≤ k → collName base ext k ≠ cur) →
    freeNameAux existing base ext cur c fuel ∉ existing := by
  intro fuel
  induction fuel with
  | zero => intro existing base ext cur c h _; omega
  | succ fuel ih =>
    intro existing base ext cur c hlen hne
    rw [freeNameAux]
    by_cases hc : cur ∈ existing
    · rw [if_pos hc]
      have hpos : 0 < existing.length := List.length_pos_of_mem hc
      have hlen2 : (existing.erase cur).length < fuel := by
        rw [List.length_erase_of_mem hc]; omega
      have hcongr : freeNameAux existing base ext (collName base ext c) (c + 1) fuel =
          freeNameAux (existing.erase cur) base ext (collName base ext c) (c + 1) fuel := by
        refine freeNameAux_congr fuel existing (existing.erase cur) base ext
          (collName base ext c) (c + 1) ?_ ?_
        · exact (List.mem_erase_of_ne (hne c le_rfl)).symm
        · intro k hk
          exact (List.mem_erase_of_ne (hne k (by omega))).symm
      rw [hcongr]
      have hrec : freeNameAux (existing.erase cur) base ext (collName base ext c)
          (c + 1) fuel ∉ existing.erase cur := by
        refine ih (existing.erase cur) base ext (collName base ext c) (c + 1) hlen2 ?_
        intro k hk heq
        have := collName_inj base ext heq
        omega
      intro hmem
      have hres : freeNameAux (existing.erase cur) base ext (collName base ext c)
          (c + 1) fuel ≠ cur := by
        rcases freeNameAux_shape fuel (existing.erase cur) base ext
          (collName base ext c) (c + 1) with h | ⟨k, hk, h⟩
        · rw [h]; exact hne c le_rfl
        · rw [h]; exact hne k (by omega)
      exact hrec ((List.mem_erase_of_ne hres).mpr hmem)
    · rw [if_neg hc]; exact hc

/-- C7: the manual trash fallback of `move_to_trash` never overwrites an
existing file: for every trash-directory content and filename, the name
chosen by the collision loop is not already present; and trashing two
files named a.txt in sequence (the `trash` primitive failing, the manual
move succeeding) places the second at "a (1).txt" next to the first. -/
theorem claim_C7_fallback_never_overwrites :
    (∀ (existing : List (List Char)) (filename : List Char),
        trashTarget existing filename ∉ existing)
  ∧ move_to_trash ⟨some 1, [], none⟩ "/Users/x/a.txt"
      = ⟨true, ["a.txt".data], none⟩
  ∧ move_to_trash ⟨some 1, ["a.txt".data], none⟩ "/Users/y/a.txt"
      = ⟨true, ["a (1).txt".data, "a.txt".data], none⟩ := by
  refine ⟨?_, by decide, by decide⟩
  intro existing filename
  rw [trashTarget]
  exact freeNameAux_not_mem (existing.length + 1) existing
    (splitextChars filename).1 (splitextChars filename).2 filename 1
    (by omega) (fun k _ => collName_ne_splitext filename k)

instance : IsTotal FileRecord sizeDescLE :=
  ⟨fun a b => (Nat.le_total b.size_bytes a.size_bytes).imp id id⟩

instance : IsTrans FileRecord sizeDescLE :=
  ⟨fun _ _ _ hab hbc => Nat.le_trans hbc hab⟩

theorem filter_size_orderedInsert (v : Nat) (x : FileRecord) (l : List FileRecord) :
    (List.orderedInsert sizeDescLE x l).filter (fun r => decide (r.size_bytes = v)) =
      if x.size_bytes = v
      then x :: l.filter (fun r => decide (r.size_bytes = v))
      else l.filter (fun r => decide (r.size_bytes = v)) := by
  induction l with
  | nil =>
    by_cases hv : x.size_bytes = v <;> simp [List.orderedInsert, hv]
  | cons h t ih =>
    rw [List.orderedInsert]
    by_cases hr : sizeDescLE x h
    · rw [if_pos hr]
      by_cases hv : x.size_bytes = v <;> simp [List.filter_cons, hv]
    · rw [if_neg hr]
      rw [sizeDescLE] at hr
      by_cases hv : x.size_bytes = v
      · have hh : ¬ h.size_bytes = v := by omega
        simp [List.filter_cons, hh, ih, hv]
      · simp [List.filter_cons, ih, hv]

theorem filter_size_insertionSort (v : Nat) (l : List FileRecord) :
    (List.insertionSort sizeDescLE l).filter (fun r => decide (r.size_bytes = v)) =
      l.filter (fun r => decide (r.size_bytes = v)) := by
  induction l with
  | nil => rfl
  | cons h t ih =>
    rw [List.insertionSort, filter_size_orderedInsert]
    by_cases hv : h.size_bytes = v <;> simp [List.filter_cons, hv, ih]

/-- C8: for every metadata collaborator and scan input, the catalog
produced by `find_large_files` is sorted pairwise non-increasing by size
across the full list, is a permutation of the discovery-order record list,
and the sort is stable: for every size value, the records of that size
appear in exactly their discovery order. -/
theorem claim_C8_catalog_sorted_stable (meta : String → Option FileMeta)
    (scans : List (String × List String)) :
    (find_large_files meta scans).Sorted sizeDescLE
  ∧ List.Perm (find_large_files meta scans) (find_large_files_raw meta scans)
  ∧ ∀ v : Nat,
      (find_large_files meta scans).filter (fun r => decide (r.size_bytes = v))
        = (find_large_files_raw meta scans).filter (fun r => decide (r.size_bytes = v)) :=
  ⟨List.sorted_insertionSort sizeDescLE (find_large_files_raw meta scans),
   List.perm_insertionSort sizeDescLE (find_large_files_raw meta scans),
   fun v => filter_size_insertionSort v (find_large_files_raw meta scans)⟩

/-- Componentwise sum of two tallies. -/
def addTally (a b : Tally) : Tally :=
  ⟨a.deleted_count + b.deleted_count, a.deleted_size + b.deleted_size,
   a.skipped_count + b.skipped_count⟩

/-- The tally accumulated over a list of processed records. -/
def tallyOf (outs : List (FileRecord × Outcome)) : Tally :=
  outs.foldl (fun t ro => updTally t ro.2 ro.1.size_bytes) ⟨0, 0, 0⟩

/-- The `move_to_trash` calls induced by a list of processed records: one
call per record resolved through the delete branch. -/
def callsOf (outs : List (FileRecord × Outcome)) : List String :=
  (outs.filter (fun ro => decide (ro.2 = .moved ∨ ro.2 = .moveFailed))).map
    (fun ro => ro.1.filepath)

theorem addTally_zero (t : Tally) : addTally t ⟨0, 0, 0⟩ = t := by
  simp [addTally]

theorem addTally_assoc (a b c : Tally) :
    addTally (addTally a b) c = addTally a (addTally b c) := by
  simp [addTally]; omega

theorem updTally_eq_add (t : Tally) (o : Outcome) (sz : Nat) :
    updTally t o sz = addTally t (updTally ⟨0, 0, 0⟩ o sz) := by
  cases o <;> simp [updTally, addTally]

theorem tally_foldl_from (outs : List (FileRecord × Outcome)) :
    ∀ t : Tally,
    outs.foldl (fun t ro => updTally t ro.2 ro.1.size_bytes) t = addTally t (tallyOf outs) := by
  induction outs with
  | nil => intro t; simp [tallyOf, addTally_zero]
  | cons ro os ih =>
    intro t
    rw [tallyOf, List.foldl_cons, List.foldl_cons, ih, ih, updTally_eq_add t,
      addTally_assoc]

theorem tallyOf_cons (ro : FileRecord × Outcome) (outs : List (FileRecord × Outcome)) :
    tallyOf (ro :: outs) = addTally (updTally ⟨0, 0, 0⟩ ro.2 ro.1.size_bytes) (tallyOf outs) := by
  rw [tallyOf, List.foldl_cons, tally_foldl_from]

theorem callsOf_cons (ro : FileRecord × Outcome) (outs : List (FileRecord × Outcome)) :
    callsOf (ro :: outs) =
      (if ro.2 = .moved ∨ ro.2 = .moveFailed then [ro.1.filepath] else []) ++ callsOf outs := by
  by_cases h : ro.2 = .moved ∨ ro.2 = .moveFailed <;>
    simp [callsOf, List.filter_cons, h]

theorem sessionAux_shift (moveFn : String → Bool) :
    ∀ (recs : List FileRecord) (inputs : List OpEvent) (t : Tally)
      (acc : List (FileRecord × Outcome)) (calls : List String),
    sessionAux moveFn recs inputs t acc calls =
      ⟨(sessionAux moveFn recs inputs ⟨0, 0, 0⟩ [] []).endState,
       acc.reverse ++ (sessionAux moveFn recs inputs ⟨0, 0, 0⟩ [] []).outcomes,
       addTally t (sessionAux moveFn recs inputs ⟨0, 0, 0⟩ [] []).tally,
       calls.reverse ++ (sessionAux moveFn recs inputs ⟨0, 0, 0⟩ [] []).calls⟩ := by
  intro recs
  induction recs with
  | nil =>
    intro inputs t acc calls
    simp [sessionAux, addTally_zero]
  | cons r rs ih =>
    intro inputs t acc calls
    cases hp : promptLoop moveFn r inputs with
    | eof => simp [sessionAux, hp, addTally_zero]
    | quit => simp [sessionAux, hp, addTally_zero]
    | resolved o cs rest =>
      simp only [sessionAux, hp, List.append_nil]
      rw [ih rest (updTally t o r.size_bytes) ((r, o) :: acc) (cs.reverse ++ calls),
        ih rest (updTally ⟨0, 0, 0⟩ o r.size_bytes) [(r, o)] cs.reverse]
      have ht : addTally (updTally t o r.size_bytes)
            (sessionAux moveFn rs rest ⟨0, 0, 0⟩ [] []).tally =
          addTally t (addTally (updTally ⟨0, 0, 0⟩ o r.size_bytes)
            (sessionAux moveFn rs rest ⟨0, 0, 0⟩ [] []).tally) := by
        rw [updTally_eq_add t, addTally_assoc]
      simp [ht, List.append_assoc]

theorem promptLoop_calls (moveFn : String → Bool) (r : FileRecord) :
    ∀ (inputs : List OpEvent) (o : Outcome) (cs : List String) (rest : List OpEvent),
    promptLoop moveFn r inputs = .resolved o cs rest →
    cs = if o = .moved ∨ o = .moveFailed then [r.filepath] else [] := by
  intro inputs
  induction inputs with
  | nil => intro o cs rest h; simp [promptLoop] at h
  | cons e es ih =>
    intro o cs rest h
    cases e with
    | interrupt => simp [promptLoop] at h
    | line s =>
      rw [promptLoop] at h
      split_ifs at h <;>
        first
          | (cases h; simp)
          | (exact ih o cs rest h)

theorem interactive_cleanup_nil (moveFn : String → Bool) (inputs : List OpEvent) :
    interactive_cleanup moveFn [] inputs = ⟨.done, [], ⟨0, 0, 0⟩, []⟩ := rfl

theorem interactive_cleanup_eof (moveFn : String → Bool) (r : FileRecord)
    (rs : List FileRecord) (inputs : List OpEvent)
    (hp : promptLoop moveFn r inputs = .eof) :
    interactive_cleanup moveFn (r :: rs) inputs = ⟨.eof, [], ⟨0, 0, 0⟩, []⟩ := by
  rw [interactive_cleanup]
  simp only [sessionAux, hp]
  rfl

theorem interactive_cleanup_quit (moveFn : String → Bool) (r : FileRecord)
    (rs : List FileRecord) (inputs : List OpEvent)
    (hp : promptLoop moveFn r inputs = .quit) :
    interactive_cleanup moveFn (r :: rs) inputs = ⟨.terminated, [], ⟨0, 0, 0⟩, []⟩ := by
  rw [interactive_cleanup]
  simp only [sessionAux, hp]
  rfl

theorem interactive_cleanup_cons (moveFn : String → Bool) (r : FileRecord)
    (rs : List FileRecord) (inputs : List OpEvent) (o : Outcome)
    (cs : List String) (rest : List OpEvent)
    (hp : promptLoop moveFn r inputs = .resolved o cs rest) :
    interactive_cleanup moveFn (r :: rs) inputs =
      ⟨(interactive_cleanup moveFn rs rest).endState,
       (r, o) :: (interactive_cleanup moveFn rs rest).outcomes,
       addTally (updTally ⟨0, 0, 0⟩ o r.size_bytes) (interactive_cleanup moveFn rs rest).tally,
       cs ++ (interactive_cleanup moveFn rs rest).calls⟩ := by
  rw [interactive_cleanup]
  simp only [sessionAux, hp, List.append_nil]
  rw [sessionAux_shift moveFn rs rest]
  rw [interactive_cleanup]
  simp

theorem cleanup_inv (moveFn : String → Bool) :
    ∀ (recs : List FileRecord) (inputs : List OpEvent),
    (interactive_cleanup moveFn recs inputs).tally
        = tallyOf (interactive_cleanup moveFn recs inputs).outcomes
  ∧ (interactive_cleanup moveFn recs inputs).calls
        = callsOf (interactive_cleanup moveFn recs inputs).outcomes
  ∧ (interactive_cleanup moveFn recs inputs).outcomes.map Prod.fst
        = recs.take (interactive_cleanup moveFn recs inputs).outcomes.length
  ∧ ((interactive_cleanup moveFn recs inputs).endState = .done →
        (interactive_cleanup moveFn recs inputs).outcomes.map Prod.fst = recs)
  ∧ ((interactive_cleanup moveFn recs inputs).endState ≠ .done →
        (interactive_cleanup moveFn recs inputs).outcomes.length < recs.length) := by
  intro recs
  induction recs with
  | nil =>
    intro inputs
    rw [interactive_cleanup_nil]
    exact ⟨rfl, rfl, rfl, fun _ => rfl, fun h => absurd rfl h⟩
  | cons r rs ih =>
    intro inputs
    cases hp : promptLoop moveFn r inputs with
    | eof =>
      rw [interactive_cleanup_eof moveFn r rs inputs hp]
      refine ⟨rfl, rfl, rfl, fun h => absurd h (by decide), fun _ => Nat.succ_pos rs.length⟩
    | quit =>
      rw [interactive_cleanup_quit moveFn r rs inputs hp]
      refine ⟨rfl, rfl, rfl, fun h => absurd h (by decide), fun _ => Nat.succ_pos rs.length⟩
    | resolved o cs rest =>
      rw [interactive_cleanup_cons moveFn r rs inputs o cs rest hp]
      obtain ⟨ih1, ih2, ih3, ih4, ih5⟩ := ih rest
      have hcs := promptLoop_calls moveFn r inputs o cs rest hp
      refine ⟨?_, ?_, ?_, ?_, ?_⟩
      · show addTally _ _ = tallyOf ((r, o) :: _)
        rw [tallyOf_cons, ih1]
      · show cs ++ _ = callsOf ((r, o) :: _)
        rw [callsOf_cons, ih2, hcs]
      · show ((r, o) :: _).map Prod.fst = (r :: rs).take ((r, o) :: _).length
        simp [ih3]
      · intro h
        show ((r, o) :: _).map Prod.fst = r :: rs
        simp [ih4 h]
      · intro h
        show ((r, o) :: _).length < (r :: rs).length
        simp only [List.length_cons]
        exact Nat.succ_lt_succ (ih5 h)

theorem tallyOf_eq (outs : List (FileRecord × Outcome)) :
    tallyOf outs =
      ⟨(outs.filter (fun ro => decide (ro.2 = .moved))).length,
       ((outs.filter (fun ro => decide (ro.2 = .moved))).map (fun ro => ro.1.size_bytes)).sum,
       (outs.filter (fun ro => decide (ro.2 = .skipped))).length⟩ := by
  induction outs with
  | nil => rfl
  | cons ro os ih =>
    rw [tallyOf_cons, ih]
    cases h : ro.2 <;>
      simp [updTally, addTally, List.filter_cons, h, Tally.mk.injEq] <;> omega

theorem outcome_partition (outs : List (FileRecord × Outcome)) :
    (outs.filter (fun ro => decide (ro.2 = .moved))).length
  + (outs.filter (fun ro => decide (ro.2 = .skipped))).length
  + (outs.filter (fun ro => decide (ro.2 = .keptNo ∨ ro.2 = .moveFailed))).length
  = outs.length := by
  induction outs with
  | nil => rfl
  | cons ro os ih =>
    cases h : ro.2 <;> simp [List.filter_cons, h] at ih ⊢ <;> omega

/-- C6: if the session ends in the TERMINATED state (operator quit command
or interrupt), the records processed so far are exactly a strict prefix of
the catalog; later records appear in no outcome, contribute nothing to any
tally, and receive no `move_to_trash` call (every call made was for an
already-resolved record of that prefix); the tally of the already-applied
actions stands unchanged in the result — there is no rollback. -/
theorem claim_C6_quit_halts_immediately (moveFn : String → Bool)
    (recs : List FileRecord) (inputs : List OpEvent)
    (h : (interactive_cleanup moveFn recs inputs).endState = .terminated) :
    (interactive_cleanup moveFn recs inputs).outcomes.map Prod.fst
        = recs.take (interactive_cleanup moveFn recs inputs).outcomes.length
  ∧ (interactive_cleanup moveFn recs inputs).outcomes.length < recs.length
  ∧ (interactive_cleanup moveFn recs inputs).tally
        = tallyOf (interactive_cleanup moveFn recs inputs).outcomes
  ∧ (interactive_cleanup moveFn recs inputs).calls
        = callsOf (interactive_cleanup moveFn recs inputs).outcomes
  ∧ ∀ p ∈ (interactive_cleanup moveFn recs inputs).calls,
      p ∈ (recs.take (interactive_cleanup moveFn recs inputs).outcomes.length).map
            (fun r => r.filepath) := by
  obtain ⟨i1, i2, i3, _, i5⟩ := cleanup_inv moveFn recs inputs
  refine ⟨i3, i5 (by rw [h]; decide), i1, i2, ?_⟩
  intro p hp
  rw [i2, callsOf] at hp
  obtain ⟨ro, hro, hpe⟩ := List.mem_map.mp hp
  have hmem : ro.1 ∈ (interactive_cleanup moveFn recs inputs).outcomes.map Prod.fst :=
    List.mem_map.mpr ⟨ro, List.mem_of_mem_filter hro, rfl⟩
  rw [i3] at hmem
  exact List.mem_map.mpr ⟨ro.1, hmem, hpe⟩

/-- Witness for C6: quitting at record 2 of a 3-record catalog ends the
session with only record 1 tallied. -/
theorem claim_C6_witness :
    (interactive_cleanup (fun _ => true) [sampleRec1, sampleRec2, sampleRec3]
        [OpEvent.line "", OpEvent.line "q"]).endState = .terminated
  ∧ (interactive_cleanup (fun _ => true) [sampleRec1, sampleRec2, sampleRec3]
        [OpEvent.line "", OpEvent.line "q"]).outcomes.length < 3 :=
  ⟨by decide,
   (claim_C6_quit_halts_immediately (fun _ => true) [sampleRec1, sampleRec2, sampleRec3]
      [OpEvent.line "", OpEvent.line "q"] (by decide)).2.1⟩

/-- C10: when the session exhausts the catalog (DONE), every catalog
record has exactly one outcome; moved-count plus skipped-count plus the
printed kept-count (total minus moved minus skipped) equals the catalog
size, the kept-count is exactly the number of records answered no or whose
trash move failed, and bytes-freed is exactly the sum of `size_bytes` over
the records whose `move_to_trash` call returned true. -/
theorem claim_C10_summary_conservation (moveFn : String → Bool)
    (recs : List FileRecord) (inputs : List OpEvent)
    (h : (interactive_cleanup moveFn recs inputs).endState = .done) :
    (interactive_cleanup moveFn recs inputs).outcomes.map Prod.fst = recs
  ∧ (interactive_cleanup moveFn recs inputs).tally.deleted_count
      + (interactive_cleanup moveFn recs inputs).tally.skipped_count
      + (recs.length - (interactive_cleanup moveFn recs inputs).tally.deleted_count
          - (interactive_cleanup moveFn recs inputs).tally.skipped_count)
      = recs.length
  ∧ recs.length - (interactive_cleanup moveFn recs inputs).tally.deleted_count
      - (interactive_cleanup moveFn recs inputs).tally.skipped_count
      = ((interactive_cleanup moveFn recs inputs).outcomes.filter
          (fun ro => decide (ro.2 = .keptNo ∨ ro.2 = .moveFailed))).length
  ∧ (interactive_cleanup moveFn recs inputs).tally.deleted_size
      = (((interactive_cleanup moveFn recs inputs).outcomes.filter
          (fun ro => decide (ro.2 = .moved))).map (fun ro => ro.1.size_bytes)).sum := by
  obtain ⟨i1, _, _, i4, _⟩ := cleanup_inv moveFn recs inputs
  have houts := i4 h
  have hlen := congrArg List.length houts
  rw [List.length_map] at hlen
  have hpart := outcome_partition (interactive_cleanup moveFn recs inputs).outcomes
  refine ⟨houts, ?_, ?_, ?_⟩ <;> rw [i1, tallyOf_eq] <;> dsimp only <;> omega

/-- Witness for C10: a 2-record catalog answered with two defaults
completes, and the freed-bytes counter equals the sum over the moved
records. -/
theorem claim_C10_witness :
    (interactive_cleanup (fun _ => true) [sampleRec1, sampleRec2]
        [OpEvent.line "", OpEvent.line ""]).endState = .done
  ∧ (interactive_cleanup (fun _ => true) [sampleRec1, sampleRec2]
        [OpEvent.line "", OpEvent.line ""]).tally.deleted_size
      = (((interactive_cleanup (fun _ => true) [sampleRec1, sampleRec2]
            [OpEvent.line "", OpEvent.line ""]).outcomes.filter
          (fun ro => decide (ro.2 = .moved))).map (fun ro => ro.1.size_bytes)).sum :=
  ⟨by decide,
   (claim_C10_summary_conservation (fun _ => true) [sampleRec1, sampleRec2]
      [OpEvent.line "", OpEvent.line ""] (by decide)).2.2.2⟩

/-- C2 is false as stated: with the 3-record catalog of tiers VERY_SAFE,
DANGEROUS, UNKNOWN and an all-empty input stream, the session does NOT
complete.  Records 1 and 2 resolve as moved and kept, but record 3's
default action is the inspect command, which only prints the details and
re-prompts; the empty responses are consumed without resolving it, so the
run ends by input exhaustion (an uncaught `EOFError` in the source), not in
the DONE state with outcomes moved, kept, kept. -/
theorem claim_C2_counterexample :
    (interactive_cleanup (fun _ => true) [sampleRec1, sampleRec2, sampleRec3]
        (List.replicate 3 (OpEvent.line ""))).endState = SessionEnd.eof
  ∧ (interactive_cleanup (fun _ => true) [sampleRec1, sampleRec2, sampleRec3]
        (List.replicate 3 (OpEvent.line ""))).outcomes
      = [(sampleRec1, .moved), (sampleRec2, .keptNo)]
  ∧ (interactive_cleanup (fun _ => true) [sampleRec1, sampleRec2, sampleRec3]
        (List.replicate 3 (OpEvent.line ""))).endState ≠ SessionEnd.done := by
  refine ⟨by decide, by decide, by decide⟩

/-- C2, amended: the per-tier defaults are delete for VERY_SAFE and
PROBABLY_SAFE, keep for DANGEROUS, and inspect-first for NEEDS_REVIEW and
UNKNOWN; on the 3-record catalog with tiers VERY_SAFE, DANGEROUS, UNKNOWN
and any all-empty input stream (of length at least 2), record 1 is moved
and record 2 kept, bytes-freed equals exactly record 1's size, but
record 3 is never resolved: the inspect default re-prompts until the input
is exhausted, so the session ends in the EOF state instead of completing
with record 3 kept. -/
theorem claim_C2_amended_default_actions :
    (defaultAction "VERY_SAFE" = ['y'] ∧ defaultAction "PROBABLY_SAFE" = ['y']
      ∧ defaultAction "DANGEROUS" = ['n'] ∧ defaultAction "NEEDS_REVIEW" = ['i']
      ∧ defaultAction "UNKNOWN" = ['i'])
  ∧ ∀ n : Nat, 2 ≤ n →
      interactive_cleanup (fun _ => true) [sampleRec1, sampleRec2, sampleRec3]
          (List.replicate n (OpEvent.line ""))
        = ⟨SessionEnd.eof, [(sampleRec1, .moved), (sampleRec2, .keptNo)],
           ⟨1, sampleRec1.size_bytes, 0⟩, [sampleRec1.filepath]⟩ := by
  have key : ∀ m, promptLoop (fun _ => true) sampleRec3
      (List.replicate m (OpEvent.line "")) = .eof := by
    intro m
    induction m with
    | zero => rfl
    | succ m ih =>
      have step : promptLoop (fun _ => true) sampleRec3
          (OpEvent.line "" :: List.replicate m (OpEvent.line "")) =
          promptLoop (fun _ => true) sampleRec3 (List.replicate m (OpEvent.line "")) := rfl
      rw [List.replicate_succ, step, ih]
  refine ⟨by decide, ?_⟩
  intro n hn
  obtain ⟨m, rfl⟩ : ∃ m, n = m + 2 := ⟨n - 2, by omega⟩
  have s1 : promptLoop (fun _ => true) sampleRec1
      (OpEvent.line "" :: OpEvent.line "" :: List.replicate m (OpEvent.line "")) =
      .resolved .moved [sampleRec1.filepath]
        (OpEvent.line "" :: List.replicate m (OpEvent.line "")) := rfl
  have s2 : promptLoop (fun _ => true) sampleRec2
      (OpEvent.line "" :: List.replicate m (OpEvent.line "")) =
      .resolved .keptNo [] (List.replicate m (OpEvent.line "")) := rfl
  have hrep : List.replicate (m + 2) (OpEvent.line "") =
      OpEvent.line "" :: OpEvent.line "" :: List.replicate m (OpEvent.line "") := by
    rw [List.replicate_succ, List.replicate_succ]
  rw [hrep,
    interactive_cleanup_cons (fun _ => true) sampleRec1 [sampleRec2, sampleRec3] _ _ _ _ s1,
    interactive_cleanup_cons (fun _ => true) sampleRec2 [sampleRec3] _ _ _ _ s2,
    interactive_cleanup_eof (fun _ => true) sampleRec3 [] _ (key m)]
  rfl

/-- Witness for the amended C2 at the concrete all-empty stream of
length 5. -/
theorem claim_C2_amended_witness :
    2 ≤ 5
  ∧ interactive_cleanup (fun _ => true) [sampleRec1, sampleRec2, sampleRec3]
        (List.replicate 5 (OpEvent.line ""))
      = ⟨SessionEnd.eof, [(sampleRec1, .moved), (sampleRec2, .keptNo)],
         ⟨1, sampleRec1.size_bytes, 0⟩, [sampleRec1.filepath]⟩ :=
  ⟨by decide, claim_C2_amended_default_actions.2 5 (by decide)⟩

/-- The ten decimal digit characters, the alphabet of the regex class \d. -/
def digitChars : List Char :=
  ['0', '1', '2', '3', '4', '5', '6', '7', '8', '9']

theorem digit_isDigit {c : Char} (h : c ∈ digitChars) : Char.isDigit c = true := by
  fin_cases h <;> rfl

theorem digit_toUpper {c : Char} (h : c ∈ digitChars) : Char.toUpper c = c := by
  fin_cases h <;> rfl

theorem digit_not_ws {c : Char} (h : c ∈ digitChars) : Char.isWhitespace c = false := by
  fin_cases h <;> rfl

theorem map_toUpper_digits (l : List Char) (h : ∀ c ∈ l, c ∈ digitChars) :
    l.map Char.toUpper = l := by
  induction l with
  | nil => rfl
  | cons c t ih =>
    rw [List.map_cons, digit_toUpper (h c (List.mem_cons_self c t)),
      ih (fun x hx => h x (List.mem_cons_of_mem c hx))]

theorem dropWhile_eq_self_of_not (l : List Char)
    (h : ∀ c ∈ l, Char.isWhitespace c = false) :
    l.dropWhile Char.isWhitespace = l := by
  cases l with
  | nil => rfl
  | cons c t => simp [List.dropWhile_cons, h c (List.mem_cons_self c t)]

theorem pyStrip_eq_self (l : List Char)
    (h : ∀ c ∈ l, Char.isWhitespace c = false) : pyStrip l = l := by
  rw [pyStrip, dropWhile_eq_self_of_not l h,
    dropWhile_eq_self_of_not l.reverse (fun c hc => h c (List.mem_reverse.mp hc)),
    List.reverse_reverse]

/-- The unit character produced by the regex group: the single character of
a one-character suffix, a blank when the suffix is empty. -/
def unitCharOf (us : List Char) : Char :=
  match us with
  | [u] => u
  | _ => ' '

theorem strip_upper_token (ds fs us usU : List Char)
    (hds : ∀ c ∈ ds, c ∈ digitChars) (hfs : ∀ c ∈ fs, c ∈ digitChars)
    (husmap : us.map Char.toUpper = usU)
    (husws : ∀ c ∈ usU, Char.isWhitespace c = false) :
    pyStrip (pyUpper (ds ++ ('.' :: (fs ++ us)))) = ds ++ ('.' :: (fs ++ usU)) := by
  have hup : pyUpper (ds ++ ('.' :: (fs ++ us))) = ds ++ ('.' :: (fs ++ usU)) := by
    rw [pyUpper, List.map_append, List.map_cons, List.map_append,
      map_toUpper_digits ds hds, map_toUpper_digits fs hfs, husmap,
      show Char.toUpper '.' = '.' from rfl]
  rw [hup]
  apply pyStrip_eq_self
  intro c hc
  rw [List.mem_append, List.mem_cons, List.mem_append] at hc
  rcases hc with hc | hc | hc | hc
  · exact digit_not_ws (hds c hc)
  · rw [hc]; rfl
  · exact digit_not_ws (hfs c hc)
  · exact husws c hc

theorem strip_upper_token_nodot (ds us usU : List Char)
    (hds : ∀ c ∈ ds, c ∈ digitChars)
    (husmap : us.map Char.toUpper = usU)
    (husws : ∀ c ∈ usU, Char.isWhitespace c = false) :
    pyStrip (pyUpper (ds ++ us)) = ds ++ usU := by
  have hup : pyUpper (ds ++ us) = ds ++ usU := by
    rw [pyUpper, List.map_append, map_toUpper_digits ds hds, husmap]
  rw [hup]
  apply pyStrip_eq_self
  intro c hc
  rw [List.mem_append] at hc
  rcases hc with hc | hc
  · exact digit_not_ws (hds c hc)
  · exact husws c hc

theorem takeWhile_all_digits (l : List Char) (h : ∀ c ∈ l, Char.isDigit c = true) :
    l.takeWhile Char.isDigit = l := by
  induction l with
  | nil => rfl
  | cons c t ih =>
    rw [List.takeWhile_cons, h c (List.mem_cons_self c t), if_pos rfl,
      ih (fun x hx => h x (List.mem_cons_of_mem c hx))]

theorem dropWhile_all_digits (l : List Char) (h : ∀ c ∈ l, Char.isDigit c = true) :
    l.dropWhile Char.isDigit = [] := by
  induction l with
  | nil => rfl
  | cons c t ih =>
    rw [List.dropWhile_cons, h c (List.mem_cons_self c t), if_pos rfl,
      ih (fun x hx => h x (List.mem_cons_of_mem c hx))]

theorem matchSizeToken_canonical (ds fs usU : List Char)
    (hds : ∀ c ∈ ds, Char.isDigit c = true) (hne : ds ≠ [])
    (hfs : ∀ c ∈ fs, Char.isDigit c = true)
    (hus : usU = [] ∨ usU = ['K'] ∨ usU = ['M'] ∨ usU = ['G'] ∨ usU = ['T']) :
    matchSizeToken (ds ++ ('.' :: (fs ++ usU)))
      = some (ds ++ fs, fs.length, unitCharOf usU)
  ∧ matchSizeToken (ds ++ usU) = some (ds, 0, unitCharOf usU) := by
  rcases hus with rfl | rfl | rfl | rfl | rfl <;>
    refine ⟨?_, ?_⟩ <;>
    simp [matchSizeToken, List.takeWhile_append_of_pos hds,
      List.dropWhile_append_of_pos hds, List.takeWhile_append_of_pos hfs,
      List.dropWhile_append_of_pos hfs, List.takeWhile_cons, List.dropWhile_cons,
      takeWhile_all_digits ds hds, dropWhile_all_digits ds hds,
      takeWhile_all_digits fs hfs, dropWhile_all_digits fs hfs,
      hne, unitCharOf,
      show Char.isDigit '.' = false from rfl,
      show Char.isDigit 'K' = false from rfl,
      show Char.isDigit 'M' = false from rfl,
      show Char.isDigit 'G' = false from rfl,
      show Char.isDigit 'T' = false from rfl,
      show ('K' = 'K' ∨ 'K' = 'M' ∨ 'K' = 'G' ∨ 'K' = 'T') from by decide,
      show ('M' = 'K' ∨ 'M' = 'M' ∨ 'M' = 'G' ∨ 'M' = 'T') from by decide,
      show ('G' = 'K' ∨ 'G' = 'M' ∨ 'G' = 'G' ∨ 'G' = 'T') from by decide,
      show ('T' = 'K' ∨ 'T' = 'M' ∨ 'T' = 'G' ∨ 'T' = 'T') from by decide]

theorem pow2_eq_zpow (e : ℤ) : pow2 e = (2 : ℚ) ^ e := by
  rw [pow2]
  split
  · rename_i h
    rw [Nat.cast_pow, Nat.cast_ofNat, ← zpow_natCast (2 : ℚ) e.toNat,
      Int.toNat_of_nonneg h]
  · rename_i h
    rw [Nat.cast_pow, Nat.cast_ofNat, ← zpow_natCast (2 : ℚ) (-e).toNat,
      Int.toNat_of_nonneg (by omega), ← zpow_neg, neg_neg]

theorem floorScaled_eq (m : ℕ) (e : ℤ) : floorScaled m e = ⌊(m : ℚ) * pow2 e⌋₊ := by
  rw [floorScaled, pow2]
  split
  · rw [← Nat.cast_mul, Nat.floor_natCast]
  · rw [← div_eq_mul_inv, Nat.floor_div_nat, Nat.floor_natCast]

theorem log2Fuel_spec : ∀ (f n : ℕ), 1 ≤ n → n ≤ f →
    2 ^ log2Fuel f n ≤ n ∧ n < 2 ^ (log2Fuel f n + 1) := by
  intro f
  induction f with
  | zero => intro n h1 h2; omega
  | succ f ih =>
    intro n h1 h2
    rw [log2Fuel]
    by_cases hle : n ≤ 1
    · rw [if_pos hle]
      constructor
      · simpa using h1
      · have h2p : (2 : ℕ) ^ (0 + 1) = 2 := by norm_num
        omega
    · rw [if_neg hle]
      obtain ⟨ha, hb⟩ := ih (n / 2) (by omega) (by omega)
      have e1 : 2 ^ (log2Fuel f (n / 2) + 1) = 2 * 2 ^ log2Fuel f (n / 2) := by ring
      have e2 : 2 ^ (log2Fuel f (n / 2) + 1 + 1) = 2 * 2 ^ (log2Fuel f (n / 2) + 1) := by
        ring
      constructor
      · rw [e1]; omega
      · rw [e2]; omega

theorem natLog2_spec (n : ℕ) (h : 1 ≤ n) :
    2 ^ natLog2 n ≤ n ∧ n < 2 ^ (natLog2 n + 1) :=
  log2Fuel_spec n n h le_rfl

theorem natLog2_le_52 (n : ℕ) (h1 : 1 ≤ n) (h : n < 2 ^ 53) : natLog2 n ≤ 52 := by
  by_contra hgt
  push_neg at hgt
  have hs := (natLog2_spec n h1).1
  have hp : (2 : ℕ) ^ 53 ≤ 2 ^ natLog2 n := Nat.pow_le_pow_right (by omega) (by omega)
  omega

theorem qlog2_int (n : ℕ) (h : 1 ≤ n) : qlog2 n 1 = (natLog2 n : ℤ) := by
  have hl1 : natLog2 1 = 0 := rfl
  have hcond : qle2pow ((natLog2 n : ℤ) - (natLog2 1 : ℤ)) n 1 = true := by
    rw [hl1]
    simp only [Nat.cast_zero, sub_zero, qle2pow, if_pos (Int.natCast_nonneg (natLog2 n))]
    rw [decide_eq_true_eq, Int.toNat_natCast, mul_one]
    exact (natLog2_spec n h).1
  rw [qlog2, if_pos hcond, hl1]
  simp

theorem doubleVal_int_small (n : ℕ) (h0 : 0 < n) (h53 : n < 2 ^ 53) :
    doubleVal n 1 = n := by
  have hle52 : natLog2 n ≤ 52 := natLog2_le_52 n h0 h53
  rw [doubleVal, doublePair, qlog2_int n h0]
  rcases Nat.lt_or_ge (natLog2 n) 52 with hlt | hge
  · have he : ¬ ((0 : ℤ) ≤ (natLog2 n : ℤ) - 52) := by omega
    have hek : (-((natLog2 n : ℤ) - 52)).toNat = 52 - natLog2 n := by omega
    simp only [roundPair, if_neg he, hek, Nat.mod_one, Nat.div_one, Nat.mul_zero,
      Nat.zero_lt_one, if_pos]
    rw [pow2_eq_zpow, Nat.cast_mul, Nat.cast_pow, Nat.cast_ofNat, mul_assoc,
      ← zpow_natCast (2 : ℚ) (52 - natLog2 n), ← zpow_add₀ (two_ne_zero)]
    have hz : ((52 - natLog2 n : ℕ) : ℤ) + ((natLog2 n : ℤ) - 52) = 0 := by omega
    rw [hz, zpow_zero, mul_one]
  · have heq : (natLog2 n : ℤ) - 52 = 0 := by omega
    rw [heq]
    simp only [roundPair, le_refl, if_pos, Int.toNat_zero, pow_zero, one_mul,
      Nat.mod_one, Nat.div_one, Nat.mul_zero, Nat.zero_lt_one]
    rw [pow2_eq_zpow, zpow_zero, mul_one]

theorem parse_via_match (s : String) (digs : List Char) (fl : Nat) (u : Char)
    (hnil : s.data ≠ [])
    (hm : matchSizeToken (pyStrip (pyUpper s.data)) = some (digs, fl, u)) :
    parse_file_size s =
      floorScaled ((doublePair (digitsVal digs) (10 ^ fl)).1 * unitMultiplier u)
        (doublePair (digitsVal digs) (10 ^ fl)).2 := by
  rw [parse_file_size, if_neg hnil, hm]

theorem parse_of_match_none (s : String)
    (hm : matchSizeToken (pyStrip (pyUpper s.data)) = none) :
    parse_file_size s = 0 := by
  rw [parse_file_size]
  split
  · rfl
  · rw [hm]

theorem parse_eq_floor (s : String) (digs : List Char) (fl : Nat) (u : Char)
    (hnil : s.data ≠ [])
    (hm : matchSizeToken (pyStrip (pyUpper s.data)) = some (digs, fl, u)) :
    parse_file_size s =
      ⌊doubleVal (digitsVal digs) (10 ^ fl) * (unitMultiplier u : ℚ)⌋₊ := by
  rw [parse_via_match s digs fl u hnil hm, floorScaled_eq, doubleVal]
  congr 1
  push_cast
  ring

/-- The exponent of 1024 assigned by the spec to each unit suffix:
0 for none, 1 for K, 2 for M, 3 for G, 4 for T, in either letter case. -/
def unitExpOf (us : List Char) : Nat :=
  if us = ['K'] ∨ us = ['k'] then 1
  else if us = ['M'] ∨ us = ['m'] then 2
  else if us = ['G'] ∨ us = ['g'] then 3
  else if us = ['T'] ∨ us = ['t'] then 4
  else 0

theorem claim_C5_case (ds fs us usU : List Char) (e : Nat)
    (hne : ds ≠ []) (hds : ∀ c ∈ ds, c ∈ digitChars) (hfs : ∀ c ∈ fs, c ∈ digitChars)
    (husmap : us.map Char.toUpper = usU)
    (hus5 : usU = [] ∨ usU = ['K'] ∨ usU = ['M'] ∨ usU = ['G'] ∨ usU = ['T'])
    (hmult : unitMultiplier (unitCharOf usU) = 1024 ^ e) :
    parse_file_size (String.mk (ds ++ ('.' :: (fs ++ us))))
      = ⌊doubleVal (digitsVal (ds ++ fs)) (10 ^ fs.length) * 1024 ^ e⌋₊
  ∧ parse_file_size (String.mk (ds ++ us))
      = ⌊doubleVal (digitsVal ds) 1 * 1024 ^ e⌋₊ := by
  have hds' : ∀ c ∈ ds, Char.isDigit c = true := fun c hc => digit_isDigit (hds c hc)
  have hfs' : ∀ c ∈ fs, Char.isDigit c = true := fun c hc => digit_isDigit (hfs c hc)
  have husws : ∀ c ∈ usU, Char.isWhitespace c = false := by
    rcases hus5 with rfl | rfl | rfl | rfl | rfl <;> decide
  have hnil1 : (String.mk (ds ++ ('.' :: (fs ++ us)))).data ≠ [] := by
    cases ds with
    | nil => exact absurd rfl hne
    | cons a t => simp
  have hnil2 : (String.mk (ds ++ us)).data ≠ [] := by
    cases ds with
    | nil => exact absurd rfl hne
    | cons a t => simp
  have hmq : (unitMultiplier (unitCharOf usU) : ℚ) = 1024 ^ e := by
    rw [hmult]
    push_cast
    ring
  have hm := matchSizeToken_canonical ds fs usU hds' hne hfs' hus5
  constructor
  · rw [parse_eq_floor (String.mk (ds ++ ('.' :: (fs ++ us)))) (ds ++ fs)
        fs.length (unitCharOf usU) hnil1
        (by rw [show (String.mk (ds ++ ('.' :: (fs ++ us)))).data
              = ds ++ ('.' :: (fs ++ us)) from rfl,
            strip_upper_token ds fs us usU hds hfs husmap husws]
            exact hm.1),
      hmq]
  · rw [parse_eq_floor (String.mk (ds ++ us)) ds 0 (unitCharOf usU) hnil2
        (by rw [show (String.mk (ds ++ us)).data = ds ++ us from rfl,
            strip_upper_token_nodot ds us usU hds husmap husws]
            exact hm.2),
      hmq, pow_zero]

/-- C5, amended: `parse_file_size` returns the floor of the IEEE-754
double rounding of the token's decimal number, times `1024 ^ exponent(unit)`
(the multiplier is a power of two, so only the decimal-to-double conversion
rounds).  Whenever that rounding is exact — the number is representable in
double precision, in particular for every integer token below `2 ^ 53` —
this equals the originally claimed `⌊number * 1024 ^ exponent(unit)⌋`.
Malformed tokens (no numeric prefix, or any token the regex rejects, such
as an unrecognized suffix) yield 0, and the embedding is a total function
like the exception-free source (tokens of 309 or more digits, which
overflow the double range so that `int(inf)` raises, are outside the
model). -/
theorem claim_C5_parse_file_size :
    (∀ ds fs us : List Char, ds ≠ [] →
      (∀ c ∈ ds, c ∈ digitChars) → (∀ c ∈ fs, c ∈ digitChars) →
      us ∈ ([[], ['K'], ['k'], ['M'], ['m'], ['G'], ['g'], ['T'], ['t']] :
          List (List Char)) →
      (parse_file_size (String.mk (ds ++ ('.' :: (fs ++ us))))
          = ⌊doubleVal (digitsVal (ds ++ fs)) (10 ^ fs.length) * 1024 ^ unitExpOf us⌋₊
        ∧ parse_file_size (String.mk (ds ++ us))
          = ⌊doubleVal (digitsVal ds) 1 * 1024 ^ unitExpOf us⌋₊)
      ∧ (doubleVal (digitsVal (ds ++ fs)) (10 ^ fs.length)
            = (digitsVal (ds ++ fs) : ℚ) / 10 ^ fs.length →
          parse_file_size (String.mk (ds ++ ('.' :: (fs ++ us))))
            = ⌊(digitsVal (ds ++ fs) : ℚ) / 10 ^ fs.length * 1024 ^ unitExpOf us⌋₊)
      ∧ (doubleVal (digitsVal ds) 1 = (digitsVal ds : ℚ) →
          parse_file_size (String.mk (ds ++ us))
            = ⌊(digitsVal ds : ℚ) * 1024 ^ unitExpOf us⌋₊))
  ∧ (∀ n : ℕ, 0 < n → n < 2 ^ 53 → doubleVal n 1 = n)
  ∧ (∀ s : String, (pyStrip (pyUpper s.data)).takeWhile Char.isDigit = [] →
      parse_file_size s = 0)
  ∧ (∀ s : String, matchSizeToken (pyStrip (pyUpper s.data)) = none →
      parse_file_size s = 0) := by
  refine ⟨?_, fun n h0 h53 => doubleVal_int_small n h0 h53, ?_,
    fun s h => parse_of_match_none s h⟩
  · intro ds fs us hne hds hfs hus
    have main :
        parse_file_size (String.mk (ds ++ ('.' :: (fs ++ us))))
          = ⌊doubleVal (digitsVal (ds ++ fs)) (10 ^ fs.length) * 1024 ^ unitExpOf us⌋₊
      ∧ parse_file_size (String.mk (ds ++ us))
          = ⌊doubleVal (digitsVal ds) 1 * 1024 ^ unitExpOf us⌋₊ := by
      fin_cases hus
      · rw [show unitExpOf [] = 0 from by decide]
        exact claim_C5_case ds fs [] [] 0 hne hds hfs rfl (Or.inl rfl) rfl
      · rw [show unitExpOf ['K'] = 1 from by decide]
        exact claim_C5_case ds fs ['K'] ['K'] 1 hne hds hfs rfl (by simp) rfl
      · rw [show unitExpOf ['k'] = 1 from by decide]
        exact claim_C5_case ds fs ['k'] ['K'] 1 hne hds hfs rfl (by simp) rfl
      · rw [show unitExpOf ['M'] = 2 from by decide]
        exact claim_C5_case ds fs ['M'] ['M'] 2 hne hds hfs rfl (by simp) rfl
      · rw [show unitExpOf ['m'] = 2 from by decide]
        exact claim_C5_case ds fs ['m'] ['M'] 2 hne hds hfs rfl (by simp) rfl
      · rw [show unitExpOf ['G'] = 3 from by decide]
        exact claim_C5_case ds fs ['G'] ['G'] 3 hne hds hfs rfl (by simp) rfl
      · rw [show unitExpOf ['g'] = 3 from by decide]
        exact claim_C5_case ds fs ['g'] ['G'] 3 hne hds hfs rfl (by simp) rfl
      · rw [show unitExpOf ['T'] = 4 from by decide]
        exact claim_C5_case ds fs ['T'] ['T'] 4 hne hds hfs rfl (by simp) rfl
      · rw [show unitExpOf ['t'] = 4 from by decide]
        exact claim_C5_case ds fs ['t'] ['T'] 4 hne hds hfs rfl (by simp) rfl
    exact ⟨main, fun hrep => by rw [main.1, hrep], fun hrep => by rw [main.2, hrep]⟩
  · intro s h
    apply parse_of_match_none
    simp [matchSizeToken, h]

/-- Witness for the amended C5 at the token "2.5k" (2.5 is exactly
representable in double precision, so the original formula applies and
gives 2560 bytes), at the integer 120 (below 2 ^ 53, hence exact), and at
the malformed token "abc" (no numeric prefix, parses to 0). -/
theorem claim_C5_witness :
    (['2'] : List Char) ≠ []
  ∧ doubleVal (digitsVal (['2'] ++ ['5'])) (10 ^ (['5'] : List Char).length)
      = (digitsVal (['2'] ++ ['5']) : ℚ) / 10 ^ (['5'] : List Char).length
  ∧ parse_file_size (String.mk (['2'] ++ ('.' :: (['5'] ++ ['k']))))
      = ⌊(digitsVal (['2'] ++ ['5']) : ℚ) / 10 ^ (['5'] : List Char).length
          * 1024 ^ unitExpOf ['k']⌋₊
  ∧ parse_file_size "2.5k" = 2560
  ∧ doubleVal 120 1 = ((120 : ℕ) : ℚ)
  ∧ parse_file_size "abc" = 0 := by
  have hrep : doubleVal (digitsVal (['2'] ++ ['5'])) (10 ^ (['5'] : List Char).length)
      = (digitsVal (['2'] ++ ['5']) : ℚ) / 10 ^ (['5'] : List Char).length := by
    rw [show digitsVal (['2'] ++ ['5']) = 25 from by decide,
      show (['5'] : List Char).length = 1 from rfl, doubleVal,
      show doublePair 25 (10 ^ 1) = (5629499534213120, -51) from by decide]
    rw [pow2_eq_zpow, show ((-51 : ℤ)) = -((51 : ℕ) : ℤ) from by norm_num,
      zpow_neg, zpow_natCast]
    norm_num
  refine ⟨by decide, hrep, ?_, by decide, ?_,
    claim_C5_parse_file_size.2.2.1 "abc" (by decide)⟩
  · exact (claim_C5_parse_file_size.1 ['2'] ['5'] ['k'] (by decide) (by decide)
      (by decide) (by decide)).2.1 hrep
  · exact claim_C5_parse_file_size.2.1 120 (by decide) (by decide)

/-- C5 is false as originally stated: the program rounds the decimal
number through an IEEE double before multiplying, so the token
"9007199254740993" (the integer 2 ^ 53 + 1, not representable in double
precision) parses to 9007199254740992, not to the exact floor
9007199254740993 the claim demands. -/
theorem claim_C5_counterexample :
    parse_file_size "9007199254740993" = 9007199254740992
  ∧ parse_file_size "9007199254740993"
      ≠ ⌊(digitsVal "9007199254740993".data : ℚ) * 1024 ^ unitExpOf []⌋₊ := by
  have h1 : parse_file_size "9007199254740993" = 9007199254740992 := by decide
  refine ⟨h1, ?_⟩
  rw [h1, show digitsVal "9007199254740993".data = 9007199254740993 from by decide,
    show unitExpOf [] = 0 from by decide, pow_zero, mul_one, Nat.floor_natCast]
  omega
